import Mathlib

/-!
Verification of the oracle vote aggregation and gossip reactor.

The development shallowly embeds the Go sources:
* `oracle/service/runner/runner.go` — vote signing pipeline
  (`ProcessSignVoteQueue`, `ByVote`), the two pruning loops
  (`PruneUnsignedVoteBuffer`, `PruneGossipVoteBuffer`), and the oracle
  job executor (`RunOracle`);
* the reactor file — `Receive` (gossip-buffer ingress).

Modelling conventions:
* Go `string` values are modelled as `List Char` (`Str`); the Go `<` on
  strings is byte-wise lexicographic comparison, embedded as `strLt`.
* Go `int64` is modelled as `Int`, `uint64` as `Nat` (signed timestamps
  and wall-clock seconds never approach the 64-bit bounds here, so no
  wrap-around is modelled).
* Go maps are modelled as functions into `Option`.
* External collaborators that the spec declares out of scope (crypto
  signature verification, the Redis client wire transport, adapters)
  are abstracted as function parameters; the control flow around them is
  embedded faithfully.
-/

/-- Go string, modelled as its character sequence so that comparisons
and equality compute inside the kernel. -/
abbrev Str := List Char

/-- Convenience conversion from a Lean string literal. -/
def str (s : String) : Str := s.data

/-- The Go `<` on strings: byte-wise (here character-wise) lexicographic
comparison. -/
def strLt : Str → Str → Bool
  | [], [] => false
  | [], _ :: _ => true
  | _ :: _, [] => false
  | a :: as, b :: bs => if a < b then true else if b < a then false else strLt as bs

theorem strLt_nil_right : ∀ a : Str, strLt a [] = false
  | [] => rfl
  | _ :: _ => rfl

theorem strLt_irrefl : ∀ a : Str, strLt a a = false
  | [] => rfl
  | a :: as => by simp [strLt, strLt_irrefl as]

theorem strLt_cons_true_iff {a b : Char} {as bs : Str} :
    strLt (a :: as) (b :: bs) = true ↔ a < b ∨ (a = b ∧ strLt as bs = true) := by
  simp only [strLt]
  rcases lt_trichotomy a b with h | h | h
  · simp [h, ne_of_lt h]
  · simp [h, lt_irrefl]
  · simp [lt_asymm h, h, (ne_of_lt h).symm]

theorem strLt_cons_false_iff {a b : Char} {as bs : Str} :
    strLt (a :: as) (b :: bs) = false ↔ b < a ∨ (a = b ∧ strLt as bs = false) := by
  simp only [strLt]
  rcases lt_trichotomy a b with h | h | h
  · simp [h, ne_of_lt h, lt_asymm h]
  · simp [h, lt_irrefl]
  · simp [lt_asymm h, h, (ne_of_lt h).symm]

theorem strLt_asymm : ∀ a b : Str, strLt a b = true → strLt b a = false
  | [], [], h => by simp [strLt] at h
  | [], _ :: _, _ => strLt_nil_right _
  | _ :: _, [], h => by simp [strLt] at h
  | a :: as, b :: bs, h => by
    rcases strLt_cons_true_iff.mp h with hlt | ⟨rfl, hrec⟩
    · exact strLt_cons_false_iff.mpr (Or.inl hlt)
    · exact strLt_cons_false_iff.mpr (Or.inr ⟨rfl, strLt_asymm as bs hrec⟩)

theorem strLt_trans : ∀ a b c : Str, strLt a b = true → strLt b c = true → strLt a c = true
  | [], b, [], _, h2 => by rw [strLt_nil_right b] at h2; cases h2
  | [], _, _ :: _, _, _ => rfl
  | _ :: _, [], _, h1, _ => by rw [strLt_nil_right] at h1; cases h1
  | _ :: _, _ :: _, [], _, h2 => by rw [strLt_nil_right] at h2; cases h2
  | a :: as, b :: bs, c :: cs, h1, h2 => by
    rcases strLt_cons_true_iff.mp h1 with hab | ⟨rfl, hab⟩ <;>
      rcases strLt_cons_true_iff.mp h2 with hbc | ⟨rfl, hbc⟩
    · exact strLt_cons_true_iff.mpr (Or.inl (lt_trans hab hbc))
    · exact strLt_cons_true_iff.mpr (Or.inl hab)
    · exact strLt_cons_true_iff.mpr (Or.inl hbc)
    · exact strLt_cons_true_iff.mpr (Or.inr ⟨rfl, strLt_trans as bs cs hab hbc⟩)

theorem strLt_eq_of_not : ∀ a b : Str, strLt a b = false → strLt b a = false → a = b
  | [], [], _, _ => rfl
  | [], _ :: _, h1, _ => by simp [strLt] at h1
  | _ :: _, [], _, h2 => by simp [strLt] at h2
  | a :: as, b :: bs, h1, h2 => by
    rcases strLt_cons_false_iff.mp h1 with hba | ⟨rfl, hrec⟩
    · rcases strLt_cons_false_iff.mp h2 with hab | ⟨heq, _⟩
      · exact absurd hab (lt_asymm hba)
      · exact absurd heq (ne_of_lt hba)
    · rcases strLt_cons_false_iff.mp h2 with hab | ⟨_, hrec2⟩
      · exact absurd hab (lt_irrefl a)
      · rw [strLt_eq_of_not as bs hrec hrec2]

/-- Vote message (proto `tendermint/oracle/types.proto`): a single oracle
observation. -/
structure Vote where
  validator : Str
  oracleId : Str
  timestamp : Int
  data : Str
deriving DecidableEq, Repr

/-- The triple of fields that `ByVote.Less` compares, in order. -/
abbrev VoteKey := Str × Int × Str

/-- The comparison performed by `ByVote.Less` (runner.go), stated on the
compared triple: oracle id first, then timestamp, then data, each
ascending. -/
def keyLess (k1 k2 : VoteKey) : Bool :=
  if k1.1 ≠ k2.1 then strLt k1.1 k2.1
  else if k1.2.1 ≠ k2.2.1 then decide (k1.2.1 < k2.2.1)
  else strLt k1.2.2 k2.2.2

/-- Projection of a vote onto the fields compared by `ByVote.Less`. -/
def voteKey (v : Vote) : VoteKey := (v.oracleId, v.timestamp, v.data)

/-- The comparison `ByVote.Less` from runner.go: it reads exactly the `oracle_id`,
`timestamp` and `data` fields of the two votes (never `validator`). -/
def voteLess (a b : Vote) : Bool := keyLess (voteKey a) (voteKey b)

theorem keyLess_true_iff {k1 k2 : VoteKey} :
    keyLess k1 k2 = true ↔
      strLt k1.1 k2.1 = true ∨
        (k1.1 = k2.1 ∧ (k1.2.1 < k2.2.1 ∨ (k1.2.1 = k2.2.1 ∧ strLt k1.2.2 k2.2.2 = true))) := by
  by_cases h1 : k1.1 = k2.1
  · by_cases h2 : k1.2.1 = k2.2.1
    · simp [keyLess, h1, h2, strLt_irrefl, lt_irrefl]
    · simp [keyLess, h1, h2, strLt_irrefl]
  · simp [keyLess, h1]

theorem keyLess_asymm {k1 k2 : VoteKey} (h : keyLess k1 k2 = true) : keyLess k2 k1 = false := by
  by_contra hne
  have h2 : keyLess k2 k1 = true := by
    cases hh : keyLess k2 k1
    · exact absurd hh hne
    · rfl
  rcases keyLess_true_iff.mp h with ha | ⟨hae, ha⟩ <;>
    rcases keyLess_true_iff.mp h2 with hb | ⟨hbe, hb⟩
  · rw [strLt_asymm _ _ ha] at hb; cases hb
  · rw [hbe, strLt_irrefl] at ha; cases ha
  · rw [hae, strLt_irrefl] at hb; cases hb
  · rcases ha with ha | ⟨hae2, ha⟩ <;> rcases hb with hb | ⟨hbe2, hb⟩
    · exact absurd hb (lt_asymm ha)
    · exact absurd ha (by rw [hbe2]; exact lt_irrefl _)
    · exact absurd hb (by rw [hae2]; exact lt_irrefl _)
    · rw [strLt_asymm _ _ ha] at hb; cases hb

theorem keyLess_trans {k1 k2 k3 : VoteKey} (h1 : keyLess k1 k2 = true)
    (h2 : keyLess k2 k3 = true) : keyLess k1 k3 = true := by
  rcases keyLess_true_iff.mp h1 with ha | ⟨hae, ha⟩ <;>
    rcases keyLess_true_iff.mp h2 with hb | ⟨hbe, hb⟩
  · exact keyLess_true_iff.mpr (Or.inl (strLt_trans _ _ _ ha hb))
  · exact keyLess_true_iff.mpr (Or.inl (by rw [← hbe]; exact ha))
  · exact keyLess_true_iff.mpr (Or.inl (by rw [hae]; exact hb))
  · refine keyLess_true_iff.mpr (Or.inr ⟨hae.trans hbe, ?_⟩)
    rcases ha with ha | ⟨hae2, ha⟩ <;> rcases hb with hb | ⟨hbe2, hb⟩
    · exact Or.inl (lt_trans ha hb)
    · exact Or.inl (by rw [← hbe2]; exact ha)
    · exact Or.inl (by rw [hae2]; exact hb)
    · exact Or.inr ⟨hae2.trans hbe2, strLt_trans _ _ _ ha hb⟩

theorem keyLess_eq_of_not {k1 k2 : VoteKey} (h1 : keyLess k1 k2 = false)
    (h2 : keyLess k2 k1 = false) : k1 = k2 := by
  have hn1 : ¬(strLt k1.1 k2.1 = true ∨
      (k1.1 = k2.1 ∧ (k1.2.1 < k2.2.1 ∨ (k1.2.1 = k2.2.1 ∧ strLt k1.2.2 k2.2.2 = true)))) := by
    intro hc
    have := keyLess_true_iff.mpr hc
    rw [h1] at this; cases this
  have hn2 : ¬(strLt k2.1 k1.1 = true ∨
      (k2.1 = k1.1 ∧ (k2.2.1 < k1.2.1 ∨ (k2.2.1 = k1.2.1 ∧ strLt k2.2.2 k1.2.2 = true)))) := by
    intro hc
    have := keyLess_true_iff.mpr hc
    rw [h2] at this; cases this
  push_neg at hn1 hn2
  have he1 : k1.1 = k2.1 := by
    apply strLt_eq_of_not
    · cases hh : strLt k1.1 k2.1
      · rfl
      · exact absurd hh hn1.1
    · cases hh : strLt k2.1 k1.1
      · rfl
      · exact absurd hh hn2.1
  have ht1 := hn1.2 he1
  have ht2 := hn2.2 he1.symm
  have he2 : k1.2.1 = k2.2.1 := le_antisymm ht2.1 ht1.1
  have hd1 := ht1.2 he2
  have hd2 := ht2.2 he2.symm
  have he3 : k1.2.2 = k2.2.2 := by
    apply strLt_eq_of_not
    · cases hh : strLt k1.2.2 k2.2.2
      · rfl
      · exact absurd hh hd1
    · cases hh : strLt k2.2.2 k1.2.2
      · rfl
      · exact absurd hh hd2
  exact Prod.ext he1 (Prod.ext he2 he3)

/-- The non-strict order induced by `ByVote.Less` on votes: `a` may
come before `b` in a slice sorted by `sort.Sort(ByVote(...))` iff
`Less(b, a)` is false. -/
def voteOrder (a b : Vote) : Prop := voteLess b a = false

instance : DecidableRel voteOrder := fun _ _ => inferInstanceAs (Decidable (_ = false))

instance : IsTotal Vote voteOrder where
  total a b := by
    cases hh : voteLess b a
    · exact Or.inl hh
    · exact Or.inr (keyLess_asymm hh)

instance : IsTrans Vote voteOrder where
  trans a b c hab hbc := by
    unfold voteOrder voteLess at hab hbc ⊢
    cases hh : keyLess (voteKey c) (voteKey a)
    · rfl
    · exfalso
      cases hcb : keyLess (voteKey b) (voteKey c)
      · have := keyLess_eq_of_not hbc hcb
        rw [this] at hh
        rw [hh] at hab
        cases hab
      · have := keyLess_trans hcb hh
        rw [this] at hab
        cases hab

/-- The non-strict order induced by `ByVote.Less` on compared key
triples. -/
def voteKeyOrder (k1 k2 : VoteKey) : Prop := keyLess k2 k1 = false

instance : IsAntisymm VoteKey voteKeyOrder where
  antisymm _ _ h1 h2 := keyLess_eq_of_not h2 h1

/-- The call `sort.Sort(ByVote(votes))` in ProcessSignVoteQueue (runner.go):
a permutation of the input that is sorted with respect to
`ByVote.Less`. Realised here as insertion sort (Go itself uses
insertion sort for the slice sizes of the concrete examples below;
all statements other than the two-element counterexample depend only
on sortedness and the permutation property, not on the algorithm). -/
def sortVotes (l : List Vote) : List Vote := l.insertionSort voteOrder

theorem sortVotes_perm (l : List Vote) : (sortVotes l).Perm l :=
  List.perm_insertionSort voteOrder l

theorem sortVotes_sorted (l : List Vote) : List.Sorted voteOrder (sortVotes l) :=
  List.sorted_insertionSort voteOrder l

theorem sorted_map_voteKey {l : List Vote} (h : List.Sorted voteOrder l) :
    List.Sorted voteKeyOrder (l.map voteKey) :=
  List.Pairwise.map voteKey (fun _ _ hab => hab) h

theorem sortVotes_key_determined {l1 l2 : List Vote} (h : l1.Perm l2) :
    (sortVotes l1).map voteKey = (sortVotes l2).map voteKey := by
  apply List.eq_of_perm_of_sorted (r := voteKeyOrder)
  · exact ((sortVotes_perm l1).map voteKey).trans
      ((h.map voteKey).trans ((sortVotes_perm l2).map voteKey).symm)
  · exact sorted_map_voteKey (sortVotes_sorted l1)
  · exact sorted_map_voteKey (sortVotes_sorted l2)

/-- The three example votes of the sort-contract scenario
(validator field empty in gossip form). -/
def exVoteB2x : Vote := ⟨str "", str "B", 2, str "x"⟩

/-- Second example vote of the sort-contract scenario. -/
def exVoteA5y : Vote := ⟨str "", str "A", 5, str "y"⟩

/-- Third example vote of the sort-contract scenario. -/
def exVoteB1z : Vote := ⟨str "", str "B", 1, str "z"⟩

/-- Two votes that tie on every compared field but belong to different
validators. -/
def tieVoteU : Vote := ⟨str "alice", str "A", 1, str "x"⟩

/-- The second of the tied votes. -/
def tieVoteW : Vote := ⟨str "bob", str "A", 1, str "x"⟩

/-- Claim C2 (counterexample): the resulting order is not uniquely
determined by the input multiset. Two votes that agree on
`(oracle_id, timestamp, data)` but differ in `validator` are
incomparable under `ByVote.Less`, so the two orderings of the same
two-element multiset are both already sorted and are returned
unchanged (this is the insertion-sort behaviour of Go on small slices),
yielding different output sequences. -/
theorem C2_counterexample :
    ([tieVoteU, tieVoteW] : List Vote).Perm [tieVoteW, tieVoteU] ∧
      sortVotes [tieVoteU, tieVoteW] = [tieVoteU, tieVoteW] ∧
      sortVotes [tieVoteW, tieVoteU] = [tieVoteW, tieVoteU] ∧
      sortVotes [tieVoteU, tieVoteW] ≠ sortVotes [tieVoteW, tieVoteU] := by
  decide

/-- Claim C2 (amended): the signer sorts the votes of the batch by
`(oracle_id ASC, timestamp ASC, data ASC)`; the output is a sorted
permutation of the input, and the resulting sequence of
`(oracle_id, timestamp, data)` triples is uniquely determined by the
input multiset (full votes are determined only up to votes that tie on
all three compared fields, since the order never reads `validator`).
The example inputs [(o=B,t=2,d=x), (o=A,t=5,d=y), (o=B,t=1,d=z)] yield
the order [A/5/y, B/1/z, B/2/x]. -/
theorem C2_sort_contract :
    (∀ l : List Vote, (sortVotes l).Perm l ∧ List.Sorted voteOrder (sortVotes l)) ∧
      (∀ l1 l2 : List Vote, l1.Perm l2 →
        (sortVotes l1).map voteKey = (sortVotes l2).map voteKey) ∧
      sortVotes [exVoteB2x, exVoteA5y, exVoteB1z] = [exVoteA5y, exVoteB1z, exVoteB2x] := by
  refine ⟨fun l => ⟨sortVotes_perm l, sortVotes_sorted l⟩,
    fun l1 l2 h => sortVotes_key_determined h, by decide⟩

/-- Claim C2 witness: the amended theorem applied at the example input
and at a transposed pair. -/
theorem C2_witness :
    (sortVotes [exVoteB2x, exVoteA5y] ).map voteKey =
        (sortVotes [exVoteA5y, exVoteB2x]).map voteKey ∧
      sortVotes [exVoteB2x, exVoteA5y, exVoteB1z] = [exVoteA5y, exVoteB1z, exVoteB2x] :=
  ⟨C2_sort_contract.2.1 [exVoteB2x, exVoteA5y] [exVoteA5y, exVoteB2x] (by decide),
    C2_sort_contract.2.2⟩

/-- GossipVote message (SignedBatch): the current signed batch of one
validator,
with the fields used by the reactor and the signer. -/
structure GossipVote where
  validatorIndex : Int
  publicKey : Str
  votes : List Vote
  signedTimestamp : Int
  signature : Str
  signType : Str
deriving DecidableEq, Repr

/-- The gossip buffer: map from validator-address string to the
latest accepted batch of that validator. -/
def GossipBuffer := Str → Option GossipVote

/-- The method `Reactor.Receive` for a `GossipVote` message (reactor source,
lines 158-219), after message-type dispatch. Signature verification
and address recovery call external crypto primitives; they are
abstracted as the parameters `verify` (the `VerifySignature` call for
the scheme selected by `sign_type`) and `addrOf` (the
`pubKey.Address().String()` computation). Everything else — the
supported-scheme dispatch, the drop on failed verification, the
install of a first-contact entry, and the strictly-greater-timestamp
replacement rule — is embedded directly. -/
def Receive (verify : GossipVote → Bool) (addrOf : GossipVote → Str)
    (buf : GossipBuffer) (msg : GossipVote) : GossipBuffer :=
  if msg.signType = str "ed25519" ∨ msg.signType = str "sr25519" then
    if verify msg then
      match buf (addrOf msg) with
      | none => fun a => if a = addrOf msg then some msg else buf a
      | some currentGossipVote =>
        if currentGossipVote.signedTimestamp < msg.signedTimestamp then
          fun a => if a = addrOf msg then some msg else buf a
        else buf
    else buf
  else buf

/-- Receiving a sequence of messages, in order. -/
def ReceiveAll (verify : GossipVote → Bool) (addrOf : GossipVote → Str) :
    GossipBuffer → List GossipVote → GossipBuffer
  | buf, [] => buf
  | buf, m :: ms => ReceiveAll verify addrOf (Receive verify addrOf buf m) ms

theorem Receive_key_step (verify : GossipVote → Bool) (addrOf : GossipVote → Str)
    (buf : GossipBuffer) (msg : GossipVote) (K : Str) (g : GossipVote)
    (h : buf K = some g) :
    ∃ g', Receive verify addrOf buf msg K = some g' ∧
      (g' = g ∨ g.signedTimestamp < g'.signedTimestamp) := by
  unfold Receive
  by_cases hst : msg.signType = str "ed25519" ∨ msg.signType = str "sr25519"
  · by_cases hv : verify msg
    · rcases hb : buf (addrOf msg) with _ | cur
      · by_cases hK : K = addrOf msg
        · rw [hK, hb] at h; cases h
        · exact ⟨g, by simp [hst, hv, hb, hK, h], Or.inl rfl⟩
      · by_cases hts : cur.signedTimestamp < msg.signedTimestamp
        · by_cases hK : K = addrOf msg
          · refine ⟨msg, by simp [hst, hv, hb, hts, hK], Or.inr ?_⟩
            rw [hK, hb] at h
            cases h
            exact hts
          · exact ⟨g, by simp [hst, hv, hb, hts, hK, h], Or.inl rfl⟩
        · exact ⟨g, by simp [hst, hv, hb, hts, h], Or.inl rfl⟩
    · exact ⟨g, by simp [hst, hv, h], Or.inl rfl⟩
  · exact ⟨g, by simp [hst, h], Or.inl rfl⟩

theorem ReceiveAll_key_mono (verify : GossipVote → Bool) (addrOf : GossipVote → Str) :
    ∀ (msgs : List GossipVote) (buf : GossipBuffer) (K : Str) (g : GossipVote),
      buf K = some g →
      ∃ g', ReceiveAll verify addrOf buf msgs K = some g' ∧
        (g' = g ∨ g.signedTimestamp < g'.signedTimestamp)
  | [], _, _, g, h => ⟨g, h, Or.inl rfl⟩
  | m :: ms, buf, K, g, h => by
    obtain ⟨g1, h1, hc1⟩ := Receive_key_step verify addrOf buf m K g h
    obtain ⟨g2, h2, hc2⟩ := ReceiveAll_key_mono verify addrOf ms _ K g1 h1
    refine ⟨g2, h2, ?_⟩
    rcases hc1 with rfl | hlt1
    · exact hc2
    · rcases hc2 with rfl | hlt2
      · exact Or.inr hlt1
      · exact Or.inr (lt_trans hlt1 hlt2)

/-- Claim C1: for a received batch that passes signature verification
and whose sender already has a stored entry, `Receive` replaces the
entry iff the incoming `signed_timestamp` is strictly greater; equal
or smaller timestamps leave the whole buffer unchanged. Consequently,
over any sequence of received messages, the entry stored for any key
either stays put or its `signed_timestamp` strictly increases. -/
theorem C1_monotonic_replacement :
    (∀ (verify : GossipVote → Bool) (addrOf : GossipVote → Str) (buf : GossipBuffer)
        (msg cur : GossipVote),
      (msg.signType = str "ed25519" ∨ msg.signType = str "sr25519") →
      verify msg = true →
      buf (addrOf msg) = some cur →
      (cur.signedTimestamp < msg.signedTimestamp →
          Receive verify addrOf buf msg (addrOf msg) = some msg) ∧
        (¬cur.signedTimestamp < msg.signedTimestamp →
          Receive verify addrOf buf msg = buf)) ∧
    (∀ (verify : GossipVote → Bool) (addrOf : GossipVote → Str)
        (msgs : List GossipVote) (buf : GossipBuffer) (K : Str) (g g' : GossipVote),
      buf K = some g →
      ReceiveAll verify addrOf buf msgs K = some g' →
      g' = g ∨ g.signedTimestamp < g'.signedTimestamp) := by
  constructor
  · intro verify addrOf buf msg cur hst hv hb
    constructor
    · intro hts
      simp [Receive, hst, hv, hb, hts]
    · intro hts
      simp [Receive, hst, hv, hb, hts]
  · intro verify addrOf msgs buf K g g' hg hg'
    obtain ⟨g2, h2, hc⟩ := ReceiveAll_key_mono verify addrOf msgs buf K g hg
    rw [hg'] at h2
    cases h2
    exact hc

/-- A trivially-true verifier, standing for a batch whose signature
checks out. -/
def witVerify : GossipVote → Bool := fun _ => true

/-- Address recovery for the witnesses: the address of a key is the
key bytes themselves. -/
def witAddr : GossipVote → Str := fun g => g.publicKey

/-- A stored batch with `signed_timestamp` 100. -/
def gvOld : GossipVote := ⟨0, str "k", [], 100, str "sig", str "ed25519"⟩

/-- An incoming batch from the same key with `signed_timestamp` 101. -/
def gvNew : GossipVote := ⟨0, str "k", [], 101, str "sig2", str "ed25519"⟩

/-- A buffer holding only `gvOld`. -/
def witBuf : GossipBuffer := fun a => if a = str "k" then some gvOld else none

/-- Claim C1 witness: a concrete strictly-newer batch replaces the
stored entry, and the fold over a concrete message sequence only ever
increases the stored timestamp. -/
theorem C1_witness :
    Receive witVerify witAddr witBuf gvNew (witAddr gvNew) = some gvNew ∧
      (gvOld = gvOld ∨ gvOld.signedTimestamp < gvOld.signedTimestamp) :=
  ⟨(C1_monotonic_replacement.1 witVerify witAddr witBuf gvNew gvOld (Or.inl rfl) rfl
      (by decide)).1 (by decide),
    C1_monotonic_replacement.2 witVerify witAddr [] witBuf (str "k") gvOld gvOld
      (by decide) (by decide)⟩

/-- Claim C9: a verified batch from an address with no stored entry is
installed unconditionally — no comparison of its `signed_timestamp`
against the clock or anything else is made, so an arbitrarily old
first-contact batch is accepted. -/
theorem C9_first_contact_unconditional :
    ∀ (verify : GossipVote → Bool) (addrOf : GossipVote → Str) (buf : GossipBuffer)
      (msg : GossipVote),
      (msg.signType = str "ed25519" ∨ msg.signType = str "sr25519") →
      verify msg = true →
      buf (addrOf msg) = none →
      Receive verify addrOf buf msg (addrOf msg) = some msg := by
  intro verify addrOf buf msg hst hv hb
  simp [Receive, hst, hv, hb]

/-- A first-contact batch whose `signed_timestamp` is very far in the
past. -/
def gvAncient : GossipVote := ⟨0, str "k2", [], -1000000, str "sig", str "sr25519"⟩

/-- Claim C9 witness: an arbitrarily old first-contact batch is
installed into an empty buffer. -/
theorem C9_witness :
    gvAncient.signedTimestamp < -999999 ∧
      Receive witVerify witAddr (fun _ => none) gvAncient (witAddr gvAncient) = some gvAncient :=
  ⟨by decide,
    C9_first_contact_unconditional witVerify witAddr (fun _ => none) gvAncient
      (Or.inr rfl) rfl rfl⟩

/-- The two buffer locks of the signer pipeline. -/
inductive LockId where
  | unsignedLk
  | gossipLk
deriving DecidableEq, Repr

/-- A lock event: `(lock, true)` is an acquire (`Lock()`), `(lock,
false)` a release (`Unlock()`). -/
abbrev LockEvent := LockId × Bool

/-- A lock trace is well formed when every acquire happens on a free
lock, every release on a held one, and every held lock is released by
the end. The pair of flags tracks which of the two locks is currently
held. Releasing a lock that is not held corresponds to the Go runtime
panic on `Unlock` of an unlocked mutex. -/
def wellLocked : List LockEvent → Bool × Bool → Bool
  | [], (hu, hg) => !hu && !hg
  | (LockId.unsignedLk, acq) :: rest, (hu, hg) =>
    if acq then !hu && wellLocked rest (true, hg)
    else hu && wellLocked rest (false, hg)
  | (LockId.gossipLk, acq) :: rest, (hu, hg) =>
    if acq then !hg && wellLocked rest (hu, true)
    else hg && wellLocked rest (hu, false)

/-- The shared state touched by `ProcessSignVoteQueue`: the pending
votes of the producer channel, the unsigned-vote buffer, and the gossip
buffer. -/
structure OracleInfoState where
  signVotesChan : List Vote
  unsignedVoteBuffer : List Vote
  gossipVoteBuffer : GossipBuffer

/-- Result of one `ProcessSignVoteQueue` tick: new state, the lock
trace it produced, and the candidate batch it constructed (none if it
returned before constructing one). -/
structure SignTickResult where
  state : OracleInfoState
  events : List LockEvent
  candidate : Option GossipVote

/-- The function `ProcessSignVoteQueue` (runner.go lines 35-87). Parameters:
`validatorIndex` is `consensusState.Validators.GetByAddress(...)`
(-1 when absent), `now` is `time.Now().Unix()`, `sign` is the external
`PrivValidator.SignOracleVote` primitive (`none` models a signing
error, `some` the batch with its signature appended), `selfAddr` is
the address string of this validator. The drain loop takes every currently
available vote from the channel without blocking. Note `sort.Sort`
runs on the slice that backs `UnsignedVoteBuffer.Buffer`, so the
buffer itself ends up sorted as well. On signing failure the code
calls `GossipVoteBuffer.UpdateMtx.Unlock()` and returns — that release
appears in the trace exactly where the code performs it. -/
def ProcessSignVoteQueue (validatorIndex : Int) (now : Int)
    (sign : GossipVote → Option GossipVote) (selfAddr : Str)
    (st : OracleInfoState) : SignTickResult :=
  let votes := st.signVotesChan
  let st0 : OracleInfoState := { st with signVotesChan := [] }
  if votes.isEmpty then ⟨st0, [], none⟩
  else if validatorIndex = -1 then ⟨st0, [], none⟩
  else
    let appended := st0.unsignedVoteBuffer ++ votes
    let newGossipVote : GossipVote :=
      ⟨validatorIndex, [], appended, now, [], []⟩
    let sortedVotes := sortVotes appended
    let candidate : GossipVote := { newGossipVote with votes := sortedVotes }
    let st1 : OracleInfoState := { st0 with unsignedVoteBuffer := sortedVotes }
    match sign candidate with
    | none =>
      ⟨st1,
        [(LockId.unsignedLk, true), (LockId.unsignedLk, false), (LockId.gossipLk, false)],
        some candidate⟩
    | some signed =>
      ⟨{ st1 with
          gossipVoteBuffer := fun a => if a = selfAddr then some signed else st1.gossipVoteBuffer a },
        [(LockId.unsignedLk, true), (LockId.unsignedLk, false),
          (LockId.gossipLk, true), (LockId.gossipLk, false)],
        some candidate⟩

/-- A concrete vote for the signing-failure scenario. -/
def cVote : Vote := ⟨str "v", str "DXBT", 10, str "1.5"⟩

/-- A concrete pre-state whose channel holds one vote. -/
def cState : OracleInfoState := ⟨[cVote], [], fun _ => none⟩

/-- An always-failing signer. -/
def failSign : GossipVote → Option GossipVote := fun _ => none

/-- Claim C3: exercising `ProcessSignVoteQueue` at a signing failure
(one drained vote, validator present, signer errors). The gossip
buffer is indeed left unmutated, but the failure path executes
`GossipVoteBuffer.UpdateMtx.Unlock()` without that lock ever having
been acquired, so the produced lock trace is not well formed — in Go
this `Unlock` of an unlocked `RWMutex` panics at runtime. -/
theorem C3_sign_failure_lock_bug :
    (ProcessSignVoteQueue 0 1000 failSign (str "me") cState).state.gossipVoteBuffer
        = cState.gossipVoteBuffer ∧
      (ProcessSignVoteQueue 0 1000 failSign (str "me") cState).events
        = [(LockId.unsignedLk, true), (LockId.unsignedLk, false), (LockId.gossipLk, false)] ∧
      wellLocked (ProcessSignVoteQueue 0 1000 failSign (str "me") cState).events
        (false, false) = false := by
  refine ⟨rfl, rfl, rfl⟩

/-- Claim C4: on one signer tick, the channel is drained completely;
if the drained set is empty nothing changes and no batch is built;
otherwise (validator present) the candidate batch carries the entire
unsigned-vote buffer after appending the drained votes — sorted, a
permutation of old buffer plus drain — and its `signed_timestamp` is
the current wall-clock seconds. -/
theorem C4_drain_and_batch :
    (∀ (validatorIndex now : Int) (sign : GossipVote → Option GossipVote) (selfAddr : Str)
        (st : OracleInfoState),
      st.signVotesChan = [] →
      ProcessSignVoteQueue validatorIndex now sign selfAddr st = ⟨st, [], none⟩) ∧
    (∀ (validatorIndex now : Int) (sign : GossipVote → Option GossipVote) (selfAddr : Str)
        (st : OracleInfoState),
      st.signVotesChan ≠ [] →
      validatorIndex ≠ -1 →
      ∃ gv, (ProcessSignVoteQueue validatorIndex now sign selfAddr st).candidate = some gv ∧
        gv.votes = sortVotes (st.unsignedVoteBuffer ++ st.signVotesChan) ∧
        gv.votes.Perm (st.unsignedVoteBuffer ++ st.signVotesChan) ∧
        gv.signedTimestamp = now ∧
        (ProcessSignVoteQueue validatorIndex now sign selfAddr st).state.signVotesChan = [] ∧
        (ProcessSignVoteQueue validatorIndex now sign selfAddr st).state.unsignedVoteBuffer
          = sortVotes (st.unsignedVoteBuffer ++ st.signVotesChan)) := by
  constructor
  · intro validatorIndex now sign selfAddr st hchan
    obtain ⟨c, u, g⟩ := st
    simp only at hchan
    subst hchan
    simp [ProcessSignVoteQueue]
  · intro validatorIndex now sign selfAddr st hchan hvi
    obtain ⟨c, u, g⟩ := st
    simp only at hchan
    simp only [ProcessSignVoteQueue, List.isEmpty_eq_true, hchan, if_false, hvi]
    cases hs : sign ⟨validatorIndex, [], sortVotes (u ++ c), now, [], []⟩ with
    | none =>
      exact ⟨_, rfl, rfl, sortVotes_perm _, rfl, rfl, rfl⟩
    | some signed =>
      exact ⟨_, rfl, rfl, sortVotes_perm _, rfl, rfl, rfl⟩

/-- Claim C4 witness: the empty-drain case leaves a concrete state
unchanged, and a concrete one-vote drain produces a batch carrying the
whole appended buffer with the timestamp of the tick. -/
theorem C4_witness :
    ProcessSignVoteQueue 0 1000 failSign (str "me") ⟨[], [cVote], fun _ => none⟩
        = ⟨⟨[], [cVote], fun _ => none⟩, [], none⟩ ∧
      ∃ gv, (ProcessSignVoteQueue 0 1000 failSign (str "me") cState).candidate = some gv ∧
        gv.votes = sortVotes ([] ++ [cVote]) ∧
        gv.votes.Perm ([] ++ [cVote]) ∧
        gv.signedTimestamp = 1000 ∧
        (ProcessSignVoteQueue 0 1000 failSign (str "me") cState).state.signVotesChan = [] ∧
        (ProcessSignVoteQueue 0 1000 failSign (str "me") cState).state.unsignedVoteBuffer
          = sortVotes ([] ++ [cVote]) :=
  ⟨C4_drain_and_batch.1 0 1000 failSign (str "me") ⟨[], [cVote], fun _ => none⟩ rfl,
    C4_drain_and_batch.2 0 1000 failSign (str "me") cState (by decide) (by decide)⟩

/-- The helper `contains` (runner.go lines 135-142): linear membership scan over
the block-timestamp ring. -/
def contains (s : List Int) (e : Int) : Bool :=
  match s with
  | [] => false
  | a :: rest => if a = e then true else contains rest e

theorem contains_iff (s : List Int) (e : Int) : contains s e = true ↔ e ∈ s := by
  induction s with
  | nil => simp [contains]
  | cons a rest ih =>
    by_cases h : a = e
    · simp [contains, h]
    · simp only [contains, if_neg h, ih, List.mem_cons]
      constructor
      · exact Or.inr
      · rintro (rfl | hm)
        · exact absurd rfl h
        · exact hm

/-- Step 1 of the unsigned-vote pruner pass: append the last block
time to the ring iff it is not already present. -/
def ringAppend (blockTimestamps : List Int) (lastBlockTime : Int) : List Int :=
  if contains blockTimestamps lastBlockTime then blockTimestamps
  else blockTimestamps ++ [lastBlockTime]

/-- One pass of the unsigned-vote pruner loop
(`PruneUnsignedVoteBuffer`, runner.go lines 96-133): append the last
block time if new; if the ring still has fewer than
`maxGossipVoteAge` entries, `continue` (nothing else happens — in
particular no pruning); if it exceeds that size, drop the oldest
entry; then retain exactly the votes with
`timestamp >= BlockTimestamps[0]`. (`BlockTimestamps[0]` is total
here via `headD`; on the pruning branch the ring is nonempty whenever
`maxGossipVoteAge ≥ 1`, matching Go, where the config default is 2.) -/
def PruneUnsignedVoteBufferPass (maxGossipVoteAge : Nat) (lastBlockTime : Int)
    (blockTimestamps : List Int) (buffer : List Vote) : List Int × List Vote :=
  let ts1 := ringAppend blockTimestamps lastBlockTime
  if ts1.length < maxGossipVoteAge then (ts1, buffer)
  else
    let ts2 := if maxGossipVoteAge < ts1.length then ts1.drop 1 else ts1
    (ts2, buffer.filter (fun v => decide (ts2.headD 0 ≤ v.timestamp)))

theorem ringAppend_nodup {blockTimestamps : List Int} {lastBlockTime : Int}
    (h : blockTimestamps.Nodup) : (ringAppend blockTimestamps lastBlockTime).Nodup := by
  unfold ringAppend
  by_cases hc : contains blockTimestamps lastBlockTime
  · simpa [hc] using h
  · have hni : lastBlockTime ∉ blockTimestamps := fun hm =>
      hc ((contains_iff _ _).mpr hm)
    simp [hc, List.nodup_append, h, hni, List.Disjoint]
    intro a ha hae
    exact hni (hae ▸ ha)

theorem ringAppend_length_le {blockTimestamps : List Int} {lastBlockTime : Int} :
    (ringAppend blockTimestamps lastBlockTime).length ≤ blockTimestamps.length + 1 := by
  unfold ringAppend
  by_cases hc : contains blockTimestamps lastBlockTime <;> simp [hc]

/-- A stale vote: its timestamp predates every block time in the
ring. -/
def oldVote : Vote := ⟨str "", str "o", 50, str "d"⟩

/-- Claim C5 (counterexample): a pass in which the ring is still
shorter than `max_gossip_vote_age` takes the `continue` branch and
prunes nothing, so afterwards a vote with `timestamp < ring[0]` may
remain. Concretely: `max_gossip_vote_age = 2`, empty ring, last block
time 100, buffer holding a vote of timestamp 50 — after the pass the
ring is `[100]` but the 50-vote is retained, violating the claimed
postcondition. -/
theorem C5_counterexample :
    PruneUnsignedVoteBufferPass 2 100 [] [oldVote] = ([100], [oldVote]) ∧
      oldVote.timestamp < ([100] : List Int).headD 0 := by
  decide

/-- Claim C5 (amended): on each unsigned-vote pruner pass the last
block time is appended only if it differs from every ring entry (so a
ring without duplicates stays duplicate-free); if the ring has fewer
than `max_gossip_vote_age` entries nothing else happens (in particular
the vote buffer is untouched); if it exceeds that size the oldest
entry is dropped; and **when the ring has reached
`max_gossip_vote_age` entries** every vote with
`timestamp < ring[0]` is removed, so after such a pass no retained
vote has `timestamp < ring[0]`. The ring never exceeds
`max_gossip_vote_age` entries (given it respected that bound before
the pass). -/
theorem C5_prune_unsigned :
    ∀ (maxGossipVoteAge : Nat) (lastBlockTime : Int) (ring : List Int) (buffer : List Vote),
      1 ≤ maxGossipVoteAge →
      ring.length ≤ maxGossipVoteAge →
      ring.Nodup →
      (PruneUnsignedVoteBufferPass maxGossipVoteAge lastBlockTime ring buffer).1.Nodup ∧
        (PruneUnsignedVoteBufferPass maxGossipVoteAge lastBlockTime ring buffer).1.length
          ≤ maxGossipVoteAge ∧
        (maxGossipVoteAge ≤
            (PruneUnsignedVoteBufferPass maxGossipVoteAge lastBlockTime ring buffer).1.length →
          ∀ v ∈ (PruneUnsignedVoteBufferPass maxGossipVoteAge lastBlockTime ring buffer).2,
            (PruneUnsignedVoteBufferPass maxGossipVoteAge lastBlockTime ring buffer).1.headD 0
              ≤ v.timestamp) ∧
        ((PruneUnsignedVoteBufferPass maxGossipVoteAge lastBlockTime ring buffer).1.length
            < maxGossipVoteAge →
          (PruneUnsignedVoteBufferPass maxGossipVoteAge lastBlockTime ring buffer).2 = buffer) := by
  intro maxGossipVoteAge lastBlockTime ring buffer hage hlen hnd
  have hnd1 : (ringAppend ring lastBlockTime).Nodup := ringAppend_nodup hnd
  have hlen1 : (ringAppend ring lastBlockTime).length ≤ maxGossipVoteAge + 1 :=
    le_trans ringAppend_length_le (by omega)
  simp only [PruneUnsignedVoteBufferPass]
  by_cases hshort : (ringAppend ring lastBlockTime).length < maxGossipVoteAge
  · rw [if_pos hshort]
    exact ⟨hnd1, le_of_lt hshort, fun hge => absurd hshort (not_lt.mpr hge),
      fun _ => rfl⟩
  · rw [if_neg hshort]
    by_cases hover : maxGossipVoteAge < (ringAppend ring lastBlockTime).length
    · rw [if_pos hover]
      refine ⟨hnd1.sublist (List.drop_sublist 1 _), by simp; omega, ?_, ?_⟩
      · intro _ v hv
        simpa using of_decide_eq_true (List.mem_filter.mp hv).2
      · intro hlt
        exfalso
        simp at hlt
        omega
    · rw [if_neg hover]
      refine ⟨hnd1, ?_, ?_, ?_⟩
      · show (ringAppend ring lastBlockTime).length ≤ maxGossipVoteAge
        omega
      · intro _ v hv
        exact of_decide_eq_true (List.mem_filter.mp hv).2
      · intro hlt
        exact absurd hlt hshort
/-- Claim C5 witness: the amended theorem applied at the retention
scenario of the spec — `max_gossip_vote_age = 2`, ring `[200, 300]`
after block times 100, 200, 300, a vote of timestamp 150 in the
buffer: the pass keeps the ring at two entries and prunes the
150-vote (nothing with timestamp below `ring[0] = 200` survives). -/
theorem C5_witness :
    (1 : Nat) ≤ 2 ∧ ([100, 200] : List Int).length ≤ 2 ∧ ([100, 200] : List Int).Nodup ∧
      ((PruneUnsignedVoteBufferPass 2 300 [100, 200] [⟨str "", str "o", 150, str "d"⟩]).1.Nodup ∧
        (PruneUnsignedVoteBufferPass 2 300 [100, 200] [⟨str "", str "o", 150, str "d"⟩]).1.length ≤ 2 ∧
        (2 ≤ (PruneUnsignedVoteBufferPass 2 300 [100, 200] [⟨str "", str "o", 150, str "d"⟩]).1.length →
          ∀ v ∈ (PruneUnsignedVoteBufferPass 2 300 [100, 200] [⟨str "", str "o", 150, str "d"⟩]).2,
            (PruneUnsignedVoteBufferPass 2 300 [100, 200] [⟨str "", str "o", 150, str "d"⟩]).1.headD 0
              ≤ v.timestamp) ∧
        ((PruneUnsignedVoteBufferPass 2 300 [100, 200] [⟨str "", str "o", 150, str "d"⟩]).1.length < 2 →
          (PruneUnsignedVoteBufferPass 2 300 [100, 200] [⟨str "", str "o", 150, str "d"⟩]).2
            = [⟨str "", str "o", 150, str "d"⟩])) :=
  ⟨by decide, by decide, by decide,
    C5_prune_unsigned 2 300 [100, 200] [⟨str "", str "o", 150, str "d"⟩]
      (by decide) (by decide) (by decide)⟩

/-- One pass of the gossip-buffer pruner loop
(`PruneGossipVoteBuffer`, runner.go lines 144-164): with
`interval = 60 s`, delete every entry whose `signed_timestamp` is
below `currTime - 60`. -/
def PruneGossipVoteBufferPass (currTime : Int) (buffer : GossipBuffer) : GossipBuffer :=
  fun valAddr =>
    match buffer valAddr with
    | some gossipVote =>
      if gossipVote.signedTimestamp < currTime - 60 then none else some gossipVote
    | none => none

/-- Claim C6: a gossip-buffer pruner pass removes exactly the entries
with `signed_timestamp < now - 60`: an entry below the cutoff is
deleted, an entry at or above it is kept untouched, and every entry
present afterwards was present before with an unchanged batch and a
timestamp not below the cutoff. -/
theorem C6_gossip_eviction :
    ∀ (currTime : Int) (buffer : GossipBuffer) (valAddr : Str),
      (∀ g, buffer valAddr = some g →
        PruneGossipVoteBufferPass currTime buffer valAddr
          = if g.signedTimestamp < currTime - 60 then none else some g) ∧
        (∀ g', PruneGossipVoteBufferPass currTime buffer valAddr = some g' →
          buffer valAddr = some g' ∧ ¬g'.signedTimestamp < currTime - 60) ∧
        (buffer valAddr = none → PruneGossipVoteBufferPass currTime buffer valAddr = none) := by
  intro currTime buffer valAddr
  refine ⟨fun g hg => by simp [PruneGossipVoteBufferPass, hg], ?_, fun h => by
    simp [PruneGossipVoteBufferPass, h]⟩
  intro g' hg'
  unfold PruneGossipVoteBufferPass at hg'
  rcases hb : buffer valAddr with _ | g
  · rw [hb] at hg'; cases hg'
  · rw [hb] at hg'
    by_cases hts : g.signedTimestamp < currTime - 60
    · simp [hts] at hg'
    · simp [hts] at hg'
      exact ⟨by rw [hg'], by rw [← hg']; exact hts⟩

/-- Claim C6 witness: at `now = 200` the cutoff is 140; the stored
batch of timestamp 100 (below the cutoff) is evicted. -/
theorem C6_witness :
    PruneGossipVoteBufferPass 200 witBuf (str "k") = none :=
  ((C6_gossip_eviction 200 witBuf (str "k")).1 gvOld (by decide)).trans (by decide)

/-- OracleJob: one adapter invocation in a spec (the fields the
runner reads). -/
structure OracleJob where
  adapter : Str
  inputId : Str
deriving DecidableEq, Repr

/-- OracleSpec: the resolved job list of one oracle with its output
id and early-termination flag. -/
structure OracleSpec where
  jobs : List OracleJob
  shouldEarlyTerminate : Bool
  outputId : Str
deriving DecidableEq, Repr

/-- Oracle: id, resolution period in seconds, resolved spec. -/
structure Oracle where
  id : Str
  resolution : Nat
  spec : OracleSpec
deriving DecidableEq, Repr

/-- AdapterResult: the accumulating named-value result graph of one
spec execution, as an association list (latest binding first). -/
abbrev AdapterResult := List (Str × Str)

/-- The lookup `result.GetData(id).String()`: the value bound to `id`, or the
empty string when absent. -/
def getData (result : AdapterResult) (outputId : Str) : Str :=
  match result.lookup outputId with
  | some v => v
  | none => []

/-- MsgCreateVote (x/oracle types): the on-chain vote message built
by `RunOracle`. -/
structure MsgCreateVote where
  creator : Str
  oracleId : Str
  timestamp : Int
  data : Str
deriving DecidableEq, Repr

/-- The Redis keys `RunOracle` touches: the last-submission-time
scalar, the SETNX lock keys, and the cached oracle results. -/
structure RedisState where
  lastSubmissionTime : Option Nat
  locks : List Str
  results : List (Str × Str)
deriving DecidableEq, Repr

/-- The key builder `GetOracleLockKey` (runner.go): `oracle:oracle-lock:<id>:<t>`. -/
def GetOracleLockKey (oracleId : Str) (normalizedTime : Nat) : Str :=
  str "oracle:oracle-lock:" ++ oracleId ++ str ":" ++ (Nat.repr normalizedTime).data

/-- Modelled from the spec: `adapters.GetOracleResultKey`. The adapters
package is external to the embedded sources; the Redis key table of
the spec gives
`oracle:oracle-result:<id>`. -/
def GetOracleResultKey (oracleId : Str) : Str :=
  str "oracle:oracle-result:" ++ oracleId

/-- The function `SaveOracleResult` (runner.go): cache a non-empty
price under the result key of the oracle (a no-op for the empty string). -/
def SaveOracleResult (price : Str) (oracleId : Str) (red : RedisState) : RedisState :=
  if price ≠ [] then
    { red with results := (GetOracleResultKey oracleId, price) :: red.results }
  else red

/-- The function `overwriteData` (runner.go lines 284-326): the development-mode
deterministic stub. Only `"DXBT"` passes the outer guard; the `"DETH"`
arm of the switch is dead code, kept as in the source. `t` is
`time.Now().Unix()` (non-negative, so `Nat` arithmetic coincides with
the `int64` of the source). -/
def overwriteData (oracleId : Str) (data : Str) (t : Nat) : Str :=
  if oracleId ≠ str "DXBT" then data
  else
    let mmi : Nat × Nat × Nat :=
      if oracleId = str "DXBT" then (15000, 10000, 20)
      else if oracleId = str "DETH" then (500, 1500, 5)
      else (0, 0, 0)
    let minV := mmi.1
    let maxV := mmi.2.1
    let interval := mmi.2.2
    let minute := t / 60
    let seconds := t - (t / 60) * 60
    let roundedSeconds := (seconds / 10) * 10
    let isEvenMinute := minute % 2 = 0
    if isEvenMinute then
      if roundedSeconds = 0 then (Nat.repr minV).data
      else
        (Nat.repr (minV + roundedSeconds * interval)).data ++ str "." ++
          (Nat.repr (seconds / 10)).data ++ (Nat.repr (10 - seconds / 10)).data
    else
      if roundedSeconds = 0 then (Nat.repr maxV).data
      else
        (Nat.repr (maxV - roundedSeconds * interval)).data ++ str "." ++
          (Nat.repr (seconds / 10 + 4)).data ++ (Nat.repr (10 - seconds / 10)).data

/-- The behaviour of one adapter invocation: from the job and the
result graph so far, the new result graph and whether `Perform`
returned an error. Adapters are external collaborators (HTTP
fetchers, math nodes, cache reads); the control flow of the runner around
them is what is embedded. The runtime input (begin time, config,
persisted store) is absorbed into this function. -/
abbrev Perform := OracleJob → AdapterResult → AdapterResult × Bool

/-- The job loop of `RunOracle` (runner.go lines 445-467): run the
jobs in order, reassigning the result graph each time (also on
error, as the source does); on an error with `shouldEarlyTerminate`
set, break out of the loop. Returns the final result graph and how
many jobs were invoked. Store persistence (step d) only writes
adapter scratch state back to Redis and is absorbed into the adapter
abstraction. -/
def runJobs (perform : Perform) (shouldEarlyTerminate : Bool) :
    List OracleJob → AdapterResult → AdapterResult × Nat
  | [], result => (result, 0)
  | job :: rest, result =>
    let pr := perform job result
    if pr.2 && shouldEarlyTerminate then (pr.1, 1)
    else
      let r := runJobs perform shouldEarlyTerminate rest pr.1
      (r.1, r.2 + 1)

/-- Outcome of one `RunOracle` invocation: the Redis state it leaves
behind, the normalized window it computed, how many adapter jobs it
invoked, whether it passed the SETNX lock, the vote message it
submitted (if any), and the error it returned (if any). -/
structure RunOracleOutcome where
  red : RedisState
  normalizedTime : Nat
  jobsRun : Nat
  passedLock : Bool
  submitted : Option MsgCreateVote
  errMsg : Option Str
deriving DecidableEq, Repr

/-- The already-submitted check of `RunOracle`: `exists &&
normalizedTime <= lastSubmissionTime.Uint64()`. -/
def alreadySubmitted (red : RedisState) (normalizedTime : Nat) : Bool :=
  match red.lastSubmissionTime with
  | some last => normalizedTime ≤ last
  | none => false

/-- The value extracted at the `output_id` of the spec after the job
loop. -/
def extractedData (perform : Perform) (oracle : Oracle) : Str :=
  getData (runJobs perform oracle.spec.shouldEarlyTerminate oracle.spec.jobs []).1
    oracle.spec.outputId

/-- The extracted value after the development-mode overwrite (applied
only when `OracleOverwriteData` is set). -/
def finalResultData (perform : Perform) (overwriteOn : Bool) (sysNow : Nat)
    (oracle : Oracle) : Str :=
  if overwriteOn then overwriteData oracle.id (extractedData perform oracle) sysNow
  else extractedData perform oracle

/-- The part of `RunOracle` past the SETNX lock (runner.go lines
436-496): run the job loop, persist `LastSubmissionTime =
normalizedTime` unconditionally, extract and cache the result (cached
before the development-mode overwrite, as in the source), then either
return the skipping error for an empty value or submit the
`MsgCreateVote`. `SubmitVote` is a fire-and-forget wallet call
declared outside the embedded sources; it is modelled by recording
the message in the outcome. -/
def runPast (perform : Perform) (overwriteOn : Bool) (sysNow : Nat) (creator : Str)
    (oracle : Oracle) (normalizedTime : Nat) (red1 : RedisState) : RunOracleOutcome :=
  let jr := runJobs perform oracle.spec.shouldEarlyTerminate oracle.spec.jobs []
  let red2 : RedisState := { red1 with lastSubmissionTime := some normalizedTime }
  let resultData := getData jr.1 oracle.spec.outputId
  let red3 := SaveOracleResult resultData oracle.id red2
  let resultData2 := if overwriteOn then overwriteData oracle.id resultData sysNow
    else resultData
  if resultData2 = [] then
    ⟨red3, normalizedTime, jr.2, true, none,
      some (str "skipping submission for " ++ oracle.id ++ str " as result is empty")⟩
  else
    ⟨red3, normalizedTime, jr.2, true,
      some ⟨creator, oracle.id, (normalizedTime : Int), resultData2⟩, none⟩

/-- The function `RunOracle` (runner.go lines 419-497): normalize the
current time to the resolution window of the oracle with integer division; return
early (nil) if this window was already submitted or if the SETNX on
the lock key of the window conflicts; otherwise take the lock and run the
rest. Redis round-trips are modelled as reliable (a transport error
makes the source abort even earlier, touching nothing). -/
def RunOracle (perform : Perform) (overwriteOn : Bool) (sysNow : Nat) (creator : Str)
    (oracle : Oracle) (currentTime : Nat) (red : RedisState) : RunOracleOutcome :=
  let normalizedTime := currentTime / oracle.resolution * oracle.resolution
  if alreadySubmitted red normalizedTime then
    ⟨red, normalizedTime, 0, false, none, none⟩
  else if GetOracleLockKey oracle.id normalizedTime ∈ red.locks then
    ⟨red, normalizedTime, 0, false, none, none⟩
  else
    runPast perform overwriteOn sysNow creator oracle normalizedTime
      { red with locks := GetOracleLockKey oracle.id normalizedTime :: red.locks }

/-- A serial run of several `RunOracle` invocations on the shared
Redis state (the serialization order of their atomic SETNX
operations), counting how many passed the lock. -/
def RunOracleSeq (overwriteOn : Bool) (sysNow : Nat) (creator : Str) (oracle : Oracle) :
    List (Nat × Perform) → RedisState → Nat
  | [], _ => 0
  | (t, pf) :: rest, red =>
    let o := RunOracle pf overwriteOn sysNow creator oracle t red
    (if o.passedLock then 1 else 0) + RunOracleSeq overwriteOn sysNow creator oracle rest o.red

theorem SaveOracleResult_locks (price : Str) (oracleId : Str) (red : RedisState) :
    (SaveOracleResult price oracleId red).locks = red.locks := by
  unfold SaveOracleResult
  split <;> rfl

theorem SaveOracleResult_last (price : Str) (oracleId : Str) (red : RedisState) :
    (SaveOracleResult price oracleId red).lastSubmissionTime = red.lastSubmissionTime := by
  unfold SaveOracleResult
  split <;> rfl

theorem runPast_red_locks (perform : Perform) (overwriteOn : Bool) (sysNow : Nat)
    (creator : Str) (oracle : Oracle) (T : Nat) (red1 : RedisState) :
    (runPast perform overwriteOn sysNow creator oracle T red1).red.locks = red1.locks := by
  simp only [runPast]
  split <;> split <;> simp [SaveOracleResult_locks]

theorem runPast_red_last (perform : Perform) (overwriteOn : Bool) (sysNow : Nat)
    (creator : Str) (oracle : Oracle) (T : Nat) (red1 : RedisState) :
    (runPast perform overwriteOn sysNow creator oracle T red1).red.lastSubmissionTime
      = some T := by
  simp only [runPast]
  split <;> split <;> simp [SaveOracleResult_last]

theorem runPast_normalized (perform : Perform) (overwriteOn : Bool) (sysNow : Nat)
    (creator : Str) (oracle : Oracle) (T : Nat) (red1 : RedisState) :
    (runPast perform overwriteOn sysNow creator oracle T red1).normalizedTime = T := by
  simp only [runPast]
  split <;> split <;> rfl

theorem RunOracle_locks_mono (perform : Perform) (overwriteOn : Bool) (sysNow : Nat)
    (creator : Str) (oracle : Oracle) (currentTime : Nat) (red : RedisState) (k : Str)
    (hk : k ∈ red.locks) :
    k ∈ (RunOracle perform overwriteOn sysNow creator oracle currentTime red).red.locks := by
  simp only [RunOracle]
  split
  · exact hk
  · split
    · exact hk
    · rw [runPast_red_locks]
      exact List.mem_cons_of_mem _ hk

theorem RunOracle_passed (perform : Perform) (overwriteOn : Bool) (sysNow : Nat)
    (creator : Str) (oracle : Oracle) (currentTime : Nat) (red : RedisState)
    (h : (RunOracle perform overwriteOn sysNow creator oracle currentTime red).passedLock
      = true) :
    GetOracleLockKey oracle.id (currentTime / oracle.resolution * oracle.resolution)
        ∉ red.locks ∧
      GetOracleLockKey oracle.id (currentTime / oracle.resolution * oracle.resolution)
        ∈ (RunOracle perform overwriteOn sysNow creator oracle currentTime red).red.locks := by
  simp only [RunOracle] at h ⊢
  by_cases hsub : alreadySubmitted red (currentTime / oracle.resolution * oracle.resolution)
      = true
  · rw [if_pos hsub] at h
    simp at h
  · rw [if_neg hsub] at h ⊢
    by_cases hnl : GetOracleLockKey oracle.id
        (currentTime / oracle.resolution * oracle.resolution) ∈ red.locks
    · rw [if_pos hnl] at h
      simp at h
    · rw [if_neg hnl]
      refine ⟨hnl, ?_⟩
      rw [runPast_red_locks]
      exact List.mem_cons_self _ _

theorem RunOracleSeq_zero (overwriteOn : Bool) (sysNow : Nat) (creator : Str)
    (oracle : Oracle) (T : Nat) :
    ∀ (invs : List (Nat × Perform)) (red : RedisState),
      (∀ p ∈ invs, p.1 / oracle.resolution * oracle.resolution = T) →
      GetOracleLockKey oracle.id T ∈ red.locks →
      RunOracleSeq overwriteOn sysNow creator oracle invs red = 0
  | [], _, _, _ => rfl
  | (t, pf) :: rest, red, hw, hk => by
    have ht : t / oracle.resolution * oracle.resolution = T :=
      hw (t, pf) (List.mem_cons_self _ _)
    have hpass : (RunOracle pf overwriteOn sysNow creator oracle t red).passedLock = false := by
      cases hp : (RunOracle pf overwriteOn sysNow creator oracle t red).passedLock
      · rfl
      · exfalso
        have hni := (RunOracle_passed pf overwriteOn sysNow creator oracle t red hp).1
        rw [ht] at hni
        exact hni hk
    have hk2 : GetOracleLockKey oracle.id T
        ∈ (RunOracle pf overwriteOn sysNow creator oracle t red).red.locks :=
      RunOracle_locks_mono pf overwriteOn sysNow creator oracle t red _ hk
    have hrest := RunOracleSeq_zero overwriteOn sysNow creator oracle T rest
      (RunOracle pf overwriteOn sysNow creator oracle t red).red
      (fun p hp => hw p (List.mem_cons_of_mem _ hp)) hk2
    simp [RunOracleSeq, hpass, hrest]

theorem RunOracleSeq_le_one (overwriteOn : Bool) (sysNow : Nat) (creator : Str)
    (oracle : Oracle) (T : Nat) :
    ∀ (invs : List (Nat × Perform)) (red : RedisState),
      (∀ p ∈ invs, p.1 / oracle.resolution * oracle.resolution = T) →
      RunOracleSeq overwriteOn sysNow creator oracle invs red ≤ 1
  | [], _, _ => by simp [RunOracleSeq]
  | (t, pf) :: rest, red, hw => by
    have ht : t / oracle.resolution * oracle.resolution = T :=
      hw (t, pf) (List.mem_cons_self _ _)
    cases hp : (RunOracle pf overwriteOn sysNow creator oracle t red).passedLock
    · have hrest := RunOracleSeq_le_one overwriteOn sysNow creator oracle T rest
        (RunOracle pf overwriteOn sysNow creator oracle t red).red
        (fun p hpm => hw p (List.mem_cons_of_mem _ hpm))
      simpa [RunOracleSeq, hp] using hrest
    · have hin := (RunOracle_passed pf overwriteOn sysNow creator oracle t red hp).2
      rw [ht] at hin
      have h0 := RunOracleSeq_zero overwriteOn sysNow creator oracle T rest
        (RunOracle pf overwriteOn sysNow creator oracle t red).red
        (fun p hpm => hw p (List.mem_cons_of_mem _ hpm)) hin
      simp [RunOracleSeq, hp, h0]

/-- Claim C7: `RunOracle` computes `normalized_time = (currentTime /
resolution) * resolution` by integer division; it returns with no
adapter job run and nothing submitted when a stored
`LastSubmissionTime` exists with `normalized_time <= last`, or when
the SETNX on the lock key of the window conflicts; and over any serial
order of the atomic SETNX operations of concurrent invocations for
the same `(oracle_id, normalized_time)`, at most one invocation
proceeds past the lock. -/
theorem C7_window_lock :
    (∀ (perform : Perform) (overwriteOn : Bool) (sysNow : Nat) (creator : Str)
        (oracle : Oracle) (currentTime : Nat) (red : RedisState),
      (RunOracle perform overwriteOn sysNow creator oracle currentTime red).normalizedTime
        = currentTime / oracle.resolution * oracle.resolution) ∧
      (∀ (perform : Perform) (overwriteOn : Bool) (sysNow : Nat) (creator : Str)
          (oracle : Oracle) (currentTime : Nat) (red : RedisState) (last : Nat),
        red.lastSubmissionTime = some last →
        currentTime / oracle.resolution * oracle.resolution ≤ last →
        RunOracle perform overwriteOn sysNow creator oracle currentTime red
          = ⟨red, currentTime / oracle.resolution * oracle.resolution, 0, false, none, none⟩) ∧
      (∀ (perform : Perform) (overwriteOn : Bool) (sysNow : Nat) (creator : Str)
          (oracle : Oracle) (currentTime : Nat) (red : RedisState),
        alreadySubmitted red (currentTime / oracle.resolution * oracle.resolution) = false →
        GetOracleLockKey oracle.id (currentTime / oracle.resolution * oracle.resolution)
          ∈ red.locks →
        RunOracle perform overwriteOn sysNow creator oracle currentTime red
          = ⟨red, currentTime / oracle.resolution * oracle.resolution, 0, false, none, none⟩) ∧
      (∀ (overwriteOn : Bool) (sysNow : Nat) (creator : Str) (oracle : Oracle) (T : Nat)
          (invs : List (Nat × Perform)) (red : RedisState),
        (∀ p ∈ invs, p.1 / oracle.resolution * oracle.resolution = T) →
        RunOracleSeq overwriteOn sysNow creator oracle invs red ≤ 1) := by
  refine ⟨?_, ?_, ?_, ?_⟩
  · intro perform overwriteOn sysNow creator oracle currentTime red
    simp only [RunOracle]
    split
    · rfl
    · split
      · rfl
      · exact runPast_normalized perform overwriteOn sysNow creator oracle _ _
  · intro perform overwriteOn sysNow creator oracle currentTime red last hlast hle
    have ha : alreadySubmitted red (currentTime / oracle.resolution * oracle.resolution)
        = true := by
      simp [alreadySubmitted, hlast, hle]
    simp [RunOracle, ha]
  · intro perform overwriteOn sysNow creator oracle currentTime red ha hk
    simp [RunOracle, ha, hk]
  · intro overwriteOn sysNow creator oracle T invs red hw
    exact RunOracleSeq_le_one overwriteOn sysNow creator oracle T invs red hw

theorem runPast_submitted (perform : Perform) (overwriteOn : Bool) (sysNow : Nat)
    (creator : Str) (oracle : Oracle) (T : Nat) (red1 : RedisState) :
    (finalResultData perform overwriteOn sysNow oracle = [] →
      (runPast perform overwriteOn sysNow creator oracle T red1).submitted = none ∧
        (runPast perform overwriteOn sysNow creator oracle T red1).errMsg
          = some (str "skipping submission for " ++ oracle.id ++ str " as result is empty")) ∧
      (finalResultData perform overwriteOn sysNow oracle ≠ [] →
        (runPast perform overwriteOn sysNow creator oracle T red1).submitted
          = some ⟨creator, oracle.id, (T : Int),
              finalResultData perform overwriteOn sysNow oracle⟩) := by
  have hfd : (if overwriteOn then
        overwriteData oracle.id
          (getData (runJobs perform oracle.spec.shouldEarlyTerminate oracle.spec.jobs []).1
            oracle.spec.outputId) sysNow
      else
        getData (runJobs perform oracle.spec.shouldEarlyTerminate oracle.spec.jobs []).1
          oracle.spec.outputId)
      = finalResultData perform overwriteOn sysNow oracle := rfl
  constructor
  · intro he
    simp only [runPast, hfd]
    rw [if_pos he]
    exact ⟨rfl, rfl⟩
  · intro hne
    simp only [runPast, hfd]
    rw [if_neg hne]

/-- Claim C8: when the value extracted at the `output_id` of the spec
(after any development-mode overwrite) is empty, the invocation that
passed the lock submits nothing — no `MsgCreateVote` is built, the
skipping error is returned instead; a non-empty value is submitted as
`Vote{oracle_id, timestamp = normalized_time, data = value}`. -/
theorem C8_empty_skips_submission :
    ∀ (perform : Perform) (overwriteOn : Bool) (sysNow : Nat) (creator : Str)
      (oracle : Oracle) (currentTime : Nat) (red : RedisState),
      alreadySubmitted red (currentTime / oracle.resolution * oracle.resolution) = false →
      GetOracleLockKey oracle.id (currentTime / oracle.resolution * oracle.resolution)
        ∉ red.locks →
      (finalResultData perform overwriteOn sysNow oracle = [] →
        (RunOracle perform overwriteOn sysNow creator oracle currentTime red).submitted = none ∧
          (RunOracle perform overwriteOn sysNow creator oracle currentTime red).errMsg
            = some (str "skipping submission for " ++ oracle.id ++
                str " as result is empty")) ∧
        (finalResultData perform overwriteOn sysNow oracle ≠ [] →
          (RunOracle perform overwriteOn sysNow creator oracle currentTime red).submitted
            = some ⟨creator, oracle.id,
                ((currentTime / oracle.resolution * oracle.resolution : Nat) : Int),
                finalResultData perform overwriteOn sysNow oracle⟩) := by
  intro perform overwriteOn sysNow creator oracle currentTime red ha hk
  have hro : RunOracle perform overwriteOn sysNow creator oracle currentTime red
      = runPast perform overwriteOn sysNow creator oracle
        (currentTime / oracle.resolution * oracle.resolution)
        { red with
            locks :=
              GetOracleLockKey oracle.id (currentTime / oracle.resolution * oracle.resolution)
                :: red.locks } := by
    simp [RunOracle, ha, hk]
  rw [hro]
  exact runPast_submitted perform overwriteOn sysNow creator oracle _ _

/-- Claim C10: `RunOracle` persists `LastSubmissionTime =
normalized_time` after the job loop no matter what the adapters did
(the `perform` function is arbitrary, covering errors and
early-terminated runs) and even when the extracted result is empty
and nothing is submitted; consequently every later invocation in the
same resolution window returns at the already-submitted check with no
job run and no submission. -/
theorem C10_persists_despite_no_submission :
    ∀ (perform : Perform) (overwriteOn : Bool) (sysNow : Nat) (creator : Str)
      (oracle : Oracle) (currentTime : Nat) (red : RedisState),
      alreadySubmitted red (currentTime / oracle.resolution * oracle.resolution) = false →
      GetOracleLockKey oracle.id (currentTime / oracle.resolution * oracle.resolution)
        ∉ red.locks →
      (RunOracle perform overwriteOn sysNow creator oracle currentTime red).red.lastSubmissionTime
          = some (currentTime / oracle.resolution * oracle.resolution) ∧
        (finalResultData perform overwriteOn sysNow oracle = [] →
          (RunOracle perform overwriteOn sysNow creator oracle currentTime red).submitted
            = none) ∧
        (∀ (perform2 : Perform) (overwriteOn2 : Bool) (sysNow2 : Nat) (creator2 : Str)
            (t2 : Nat),
          t2 / oracle.resolution * oracle.resolution
              = currentTime / oracle.resolution * oracle.resolution →
          RunOracle perform2 overwriteOn2 sysNow2 creator2 oracle t2
              (RunOracle perform overwriteOn sysNow creator oracle currentTime red).red
            = ⟨(RunOracle perform overwriteOn sysNow creator oracle currentTime red).red,
                currentTime / oracle.resolution * oracle.resolution, 0, false, none, none⟩) := by
  intro perform overwriteOn sysNow creator oracle currentTime red ha hk
  have hro : RunOracle perform overwriteOn sysNow creator oracle currentTime red
      = runPast perform overwriteOn sysNow creator oracle
        (currentTime / oracle.resolution * oracle.resolution)
        { red with
            locks :=
              GetOracleLockKey oracle.id (currentTime / oracle.resolution * oracle.resolution)
                :: red.locks } := by
    simp [RunOracle, ha, hk]
  have hlast : (RunOracle perform overwriteOn sysNow creator oracle currentTime
      red).red.lastSubmissionTime
      = some (currentTime / oracle.resolution * oracle.resolution) := by
    rw [hro, runPast_red_last]
  refine ⟨hlast, ?_, ?_⟩
  · intro he
    rw [hro]
    exact ((runPast_submitted perform overwriteOn sysNow creator oracle _ _).1 he).1
  · intro perform2 overwriteOn2 sysNow2 creator2 t2 ht2
    obtain ⟨red2, hred2⟩ : ∃ r,
        (RunOracle perform overwriteOn sysNow creator oracle currentTime red).red = r :=
      ⟨_, rfl⟩
    rw [hred2] at hlast ⊢
    have ha2 : alreadySubmitted red2 (currentTime / oracle.resolution * oracle.resolution)
        = true := by
      simp [alreadySubmitted, hlast]
    simp [RunOracle, ht2, ha2]

/-- A concrete oracle: id `X`, resolution 60 s, one job, early
termination enabled. -/
def tOracle : Oracle := ⟨str "X", 60, ⟨[⟨str "fetch", str "in"⟩], true, str "out"⟩⟩

/-- An adapter run in which the only job errors (so the run
early-terminates and binds nothing). -/
def tPerformErr : Perform := fun _ result => (result, true)

/-- An adapter run in which the only job binds the output value. -/
def tPerformPrice : Perform := fun _ result => ((str "out", str "42.5") :: result, false)

/-- A fresh Redis state. -/
def tRed0 : RedisState := ⟨none, [], []⟩

/-- A Redis state whose stored `LastSubmissionTime` is 100. -/
def tRedDone : RedisState := ⟨some 100, [], []⟩

/-- Claim C7 witness: with `LastSubmissionTime = 100`, an invocation
at `currentTime = 119` (window 60) returns untouched; and a serial
pair of same-window invocations on a fresh state passes the lock at
most once. -/
theorem C7_witness :
    RunOracle tPerformPrice false 0 (str "me") tOracle 119 tRedDone
        = ⟨tRedDone, 60, 0, false, none, none⟩ ∧
      RunOracleSeq false 0 (str "me") tOracle [(70, tPerformPrice), (119, tPerformErr)] tRed0
        ≤ 1 :=
  ⟨(C7_window_lock.2.1 tPerformPrice false 0 (str "me") tOracle 119 tRedDone 100 rfl
      (by decide)).trans (by decide),
    C7_window_lock.2.2.2 false 0 (str "me") tOracle 60
      [(70, tPerformPrice), (119, tPerformErr)] tRed0 (by
        intro p hp
        rcases List.mem_cons.mp hp with rfl | hp2
        · decide
        · rcases List.mem_cons.mp hp2 with rfl | hp3
          · decide
          · cases hp3)⟩

/-- Claim C8 witness: the erroring run extracts an empty value and
submits nothing; the successful run submits
`{X, timestamp 60, data "42.5"}`. -/
theorem C8_witness :
    (RunOracle tPerformErr false 0 (str "me") tOracle 70 tRed0).submitted = none ∧
      (RunOracle tPerformPrice false 0 (str "me") tOracle 70 tRed0).submitted
        = some ⟨str "me", str "X", (60 : Int), str "42.5"⟩ :=
  ⟨((C8_empty_skips_submission tPerformErr false 0 (str "me") tOracle 70 tRed0 rfl
        (by decide)).1 (by decide)).1,
    ((C8_empty_skips_submission tPerformPrice false 0 (str "me") tOracle 70 tRed0 rfl
        (by decide)).2 (by decide)).trans (by decide)⟩

/-- Claim C10 witness: the early-terminated, empty-result run still
persists `LastSubmissionTime = 60`, and a later invocation at
`currentTime = 119` (same window) returns early with nothing run or
submitted. -/
theorem C10_witness :
    (RunOracle tPerformErr false 0 (str "me") tOracle 70 tRed0).red.lastSubmissionTime
        = some 60 ∧
      RunOracle tPerformPrice false 0 (str "other") tOracle 119
          (RunOracle tPerformErr false 0 (str "me") tOracle 70 tRed0).red
        = ⟨(RunOracle tPerformErr false 0 (str "me") tOracle 70 tRed0).red,
            60, 0, false, none, none⟩ :=
  ⟨((C10_persists_despite_no_submission tPerformErr false 0 (str "me") tOracle 70 tRed0 rfl
        (by decide)).1).trans (by decide),
    ((C10_persists_despite_no_submission tPerformErr false 0 (str "me") tOracle 70 tRed0 rfl
        (by decide)).2.2 tPerformPrice false 0 (str "other") 119 (by decide)).trans
      (by decide)⟩
